import Mathlib

/-!
# IntelliRead: verification of the content-cache-and-highlight pipeline

A shallow embedding, in Lean 4, of the core logic of the IntelliRead browser
extension (`content.js`, `cache.js`): the concurrency-bounded scheduler, the
keypoint filtering and highlighting pipeline, the model-reply parser, and the
IndexedDB-backed cache store.

Modelling conventions:
* pipeline strings are `List Char` (`Str`), so that case-insensitive matching
  and splicing can be stated character by character;
* the DOM element is modelled by the two string views the code reads,
  `textContent` and `innerHTML`;
* asynchronous store operations become pure state-passing functions over an
  explicit store value;
* external effects — the remote model call, `Date.now()`, the SHA-256 digest
  of the Web Crypto API — enter as explicit parameters.
-/

namespace IntelliRead

/-- Pipeline strings are modelled as lists of characters. -/
abbrev Str := List Char

/-- Conversion from Lean string literals to the model's string type. -/
def str (s : String) : Str := s.toList

/-!
## Concurrency-bounded scheduler (`content.js`, `processWithConcurrencyLimit`)

`processWithConcurrencyLimit(items, processFunction, limit)` starts the task
for each item in order, keeps the set `executing` of unsettled task promises,
and, whenever `executing.size >= limit` after admitting a task, awaits
`Promise.race(executing)` before admitting the next one; at the end it awaits
`Promise.all(results)`.

In the single-threaded JavaScript runtime, in-flight tasks can settle only
while the admission loop is suspended, i.e. at the race await (and at the
final `Promise.all`).  We model one run as the trace of start/finish events
it generates.  The environment (a `schedule`, the list of settle counts at
successive suspension points) chooses how many of the in-flight tasks settle
at each race await: at least one — `Promise.race` resumes the loop only once
some task has settled, and every settled task has been removed from
`executing` by its `clean` callback (registered at admission, hence before
the race's own continuation) — and at most the number in flight.  Each task
performs at most one `analyzeWithAI` call, so outstanding `analyzeWithAI`
calls are bounded by in-flight tasks.
-/

/-- An event of a scheduler run: a task is started / a task settles
(fulfilled or rejected). -/
inductive SchedEv where
  | start : SchedEv
  | fin : SchedEv
deriving DecidableEq, Repr

/-- The trace of `processWithConcurrencyLimit` on `n` items: `inFlight` tasks
are currently unsettled, `sched` is the environment's settle-count choice at
the successive race awaits (clamped to the valid range `1 ≤ k ≤ inFlight`).
After the admission loop, `Promise.all` waits for the remaining in-flight
tasks to settle. -/
def runSched (limit : Nat) : Nat → Nat → List Nat → List SchedEv
  | 0, inFlight, _ => List.replicate inFlight .fin
  | n + 1, inFlight, sched =>
      let inF := inFlight + 1
      if limit ≤ inF then
        let k := min (max (sched.headD 1) 1) inF
        SchedEv.start :: (List.replicate k .fin ++ runSched limit n (inF - k) sched.tail)
      else
        SchedEv.start :: runSched limit n inF sched

/-- Bound check: starting from `cur` tasks in flight, `inflightBound t cur
lim` asserts that the number in flight never exceeds `lim` at any instant
of the trace `t`. -/
def inflightBound : List SchedEv → Nat → Nat → Bool
  | [], _, _ => true
  | .start :: t, cur, lim => decide (cur + 1 ≤ lim) && inflightBound t (cur + 1) lim
  | .fin :: t, cur, lim => inflightBound t (cur - 1) lim

/-- Number of task starts in a trace. -/
def numStarts : List SchedEv → Nat
  | [] => 0
  | .start :: t => numStarts t + 1
  | .fin :: t => numStarts t

/-- Number of settle events occurring strictly before the `k`-th start event
of the trace (counts all settle events when fewer than `k` starts occur). -/
def finsBeforeNthStart : List SchedEv → Nat → Nat
  | [], _ => 0
  | .start :: t, k => if k ≤ 1 then 0 else finsBeforeNthStart t (k - 1)
  | .fin :: t, k => finsBeforeNthStart t k + 1

/-!
`analyzePageContent` processes the page's text units through the scheduler
with the concurrency limit 5 (`content.js` line 219:
`await processWithConcurrencyLimit(elements, processElement, 5)`).
-/

/-- The scheduler trace of one `analyzePageContent` run over `n` analyzable
text units, for an arbitrary environment schedule. -/
def analyzePageSchedTrace (n : Nat) (sched : List Nat) : List SchedEv :=
  runSched 5 n 0 sched

/-!
## String utilities

The JavaScript string primitives used by the pipeline, modelled over `Str`.
-/

/-- JavaScript whitespace as matched by `\s` and trimmed by
`String.prototype.trim` (ASCII portion; the pipeline's framing characters are
ASCII). -/
def isJsWs (c : Char) : Bool :=
  c == ' ' || c == '\t' || c == '\n' || c == '\r' || c == '\x0b' || c == '\x0c'

/-- Model of `String.prototype.startsWith`: `startsWithChars p s` is true iff `p` is an
initial segment of `s`. -/
def startsWithChars : Str → Str → Bool
  | [], _ => true
  | _ :: _, [] => false
  | p :: ps, c :: cs => p == c && startsWithChars ps cs

/-- Model of `String.prototype.includes`: `containsSub text k` is true iff `k` occurs
verbatim (contiguously) in `text`. -/
def containsSub (text k : Str) : Bool :=
  match text with
  | [] => k.isEmpty
  | c :: rest => startsWithChars k (c :: rest) || containsSub rest k

/-- Model of `String.prototype.trim`. -/
def jsTrim (s : Str) : Str :=
  ((s.dropWhile isJsWs).reverse.dropWhile isJsWs).reverse

/-- Model of `String.prototype.split('\n')`, preserving empty segments. -/
def splitLinesAux : Str → Str → List Str
  | [], acc => [acc.reverse]
  | c :: rest, acc =>
      if c == '\n' then acc.reverse :: splitLinesAux rest []
      else splitLinesAux rest (c :: acc)

/-- Model of `s.split('\n')`. -/
def splitLines (s : Str) : List Str := splitLinesAux s []

/-!
## Highlighting (`content.js`, `processElement` lines 171-194)
-/

/-- Case-insensitive character comparison, as performed by a regular
expression with the `i` flag on a literal pattern (ASCII case folding). -/
def ciCharEq (a b : Char) : Bool := a.toLower == b.toLower

/-- Case-insensitive prefix test. -/
def startsCI : Str → Str → Bool
  | [], _ => true
  | _ :: _, [] => false
  | p :: ps, c :: cs => ciCharEq p c && startsCI ps cs

/-- Model of `html.replace(new RegExp(escapedKeypoint, 'gi'), m => wrapL + m + wrapR)`:
global, left-to-right, non-overlapping, case-insensitive literal replacement
(the escaping of regex metacharacters at content.js line 184 makes the
pattern match the keypoint text literally).  Replacements are spliced into
the output and never rescanned.  Returns the rewritten string together with
the list of matched (hence wrapped) segments, in match order.  An empty
pattern is treated as matching nothing; `processElement` only passes
keypoints that survived the `k.length > 0` filter. -/
def replaceCIFuel (pat wrapL wrapR : Str) : Nat → Str → Str × List Str
  | _, [] => ([], [])
  | 0, s => (s, [])
  | fuel + 1, c :: rest =>
      if !pat.isEmpty && startsCI pat (c :: rest) then
        let m := (c :: rest).take pat.length
        let r := replaceCIFuel pat wrapL wrapR fuel (rest.drop (pat.length - 1))
        (wrapL ++ m ++ wrapR ++ r.1, m :: r.2)
      else
        let r := replaceCIFuel pat wrapL wrapR fuel rest
        (c :: r.1, r.2)

/-- The replace, with enough fuel for the whole scan: every step consumes at
least one character of the subject string, so `s.length` steps always
complete it (the fuel is a structural-recursion device only). -/
def replaceCI (pat wrapL wrapR s : Str) : Str × List Str :=
  replaceCIFuel pat wrapL wrapR s.length s

/-- Extension settings consumed by the highlighter (`content.js`). -/
structure Settings where
  highlightStyle : Str
  highlightColor : Str

/-- The opening wrapper markup injected before a match (content.js 188-192):
`<span class="intelliread-highlight style-STYLE" style="...: COLOR">`. -/
def wrapOpen (s : Settings) : Str :=
  str "<span class=\"intelliread-highlight style-" ++ s.highlightStyle ++
    str "\" " ++
    (if s.highlightStyle == str "background" then
        str "style=\"background-color: " ++ s.highlightColor ++ str "\""
      else
        str "style=\"border-bottom-color: " ++ s.highlightColor ++ str "\"") ++
    str ">"

/-- The closing wrapper markup injected after a match. -/
def wrapClose : Str := str "</span>"

/-- The highlighting loop of `processElement` (content.js 182-194): for each
keypoint in order, rewrite the current `innerHTML` by the global
case-insensitive replace.  Returns the final markup and all wrapped
segments. -/
def highlightAll (s : Settings) : List Str → Str → Str × List Str
  | [], html => (html, [])
  | k :: ks, html =>
      let r := replaceCI k (wrapOpen s) wrapClose html
      let r2 := highlightAll s ks r.1
      (r2.1, r.2 ++ r2.2)

/-- Model of `keypoints.filter(k => k.length > 0 && text.includes(k))`
(content.js 174). -/
def filterKeypoints (text : Str) (kps : List Str) : List Str :=
  kps.filter (fun k => decide (0 < k.length) && containsSub text k)

/-- Stable insertion into a list sorted by descending length: the element goes
after every element of length at least its own. -/
def insertDescLen (x : Str) : List Str → List Str
  | [] => [x]
  | y :: ys => if x.length ≤ y.length then y :: insertDescLen x ys else x :: y :: ys

/-- Model of `.sort((a, b) => b.length - a.length)`: sort by descending length,
stable. -/
def sortDescLen : List Str → List Str
  | [] => []
  | x :: xs => insertDescLen x (sortDescLen xs)

/-- Model of `.sort((a, b) => b.length - a.length).slice(0, 5)` (content.js 177-179). -/
def limitKeypoints (kps : List Str) : List Str :=
  (sortDescLen kps).take 5

/-- A text unit: one `<p>` element, modelled by the two string views the code
reads — `textContent` (its rendered text) and `innerHTML` (its markup). -/
structure TextUnit where
  textContent : Str
  innerHTML : Str

/-- The filtering-and-highlighting tail of `processElement` (content.js
171-194), applied to the keypoints obtained for the unit (from the cache or
from `analyzeWithAI`): filter to non-empty verbatim substrings of
`textContent`, sort by descending length, cap at 5, then wrap every
case-insensitive occurrence of each survivor in the current `innerHTML`.
Returns the final markup and the wrapped segments. -/
def highlightKeypoints (s : Settings) (u : TextUnit) (keypoints : List Str) :
    Str × List Str :=
  highlightAll s (limitKeypoints (filterKeypoints u.textContent keypoints))
    u.innerHTML

/-- Default settings (background style, default colour) as installed by
`background.js`. -/
def defaultSettings : Settings :=
  { highlightStyle := str "background", highlightColor := str "#ADD8E6" }

/-!
## Concrete text units and stores used by the claims
-/

/-- A text unit whose markup contains a `<b>` child element; its rendered
text contains the capital letter `B` but not the lowercase letter `b`. -/
def c2Unit : TextUnit :=
  { textContent := str "B AAAAAAAAAAAAAAAAAAAAAAAAAAAAAAAA"
  , innerHTML := str "B <b>AAAAAAAAAAAAAAAAAAAAAAAAAAAAAAAA</b>" }

/-- A plain-text unit of 30 characters consisting of 15 repetitions of
`ab`. -/
def c3Unit : TextUnit :=
  { textContent := str "ababababababababababababababab"
  , innerHTML := str "ababababababababababababababab" }

/-- A plain-text unit as produced by a *previous* highlighting pass: its
markup already wraps `Hello` in a highlight span. -/
def c5Unit : TextUnit :=
  { textContent := str "Hello AAAAAAAAAAAAAAAAAAAAAAAAAAAAAAAA"
  , innerHTML := str "Hello AAAAAAAAAAAAAAAAAAAAAAAAAAAAAAAA" }

/-- The first analysis pass over `c5Unit` with keypoint `Hello`. -/
def c5Pass1 : Str × List Str :=
  highlightKeypoints defaultSettings c5Unit [str "Hello"]

/-- A second analysis pass over the same unit, whose `innerHTML` is now the
output of the first pass (as happens when `analyzePageContent` runs again on
an already-highlighted page, e.g. via auto-highlight; nothing clears the
existing wrappers first). -/
def c5Pass2 : Str × List Str :=
  highlightKeypoints defaultSettings { c5Unit with innerHTML := c5Pass1.1 }
    [str "Hello"]

/-!
## Content store (`cache.js`)

IndexedDB is modelled as an explicit store value: one list of rows per
object store, with the keyPath uniqueness maintained by `put` semantics (an
upsert replaces the row with the same key).  `Date.now()` enters as an
explicit `now : Int` (milliseconds since the epoch); the SHA-256 digest of
the Web Crypto API (`calculateHash`, cache.js 79-90) is an external
primitive and enters as a parameter `hash : Str → String`.
-/

/-- Model of `CACHE_EXPIRATION` (cache.js 17): 30 days in milliseconds. -/
def CACHE_EXPIRATION : Int := 30 * 24 * 60 * 60 * 1000

/-- One row of the `highlights` object store
(keyPath `['domain', 'contentHash']`, cache.js 51). -/
structure CacheEntry where
  domain : String
  contentHash : String
  keypoints : List Str
  timestamp : Int
deriving DecidableEq, Repr

/-- One row of the `highlighted_urls` object store (keyPath `'url'`,
cache.js 62). -/
structure UrlMarker where
  url : String
  timestamp : Int
deriving DecidableEq, Repr

/-- The persistent store (the two object stores the claims are about). -/
structure Store where
  highlights : List CacheEntry
  highlightedUrls : List UrlMarker
deriving DecidableEq, Repr

/-- Key lookup in the `highlights` store. -/
def findEntry (st : Store) (domain contentHash : String) : Option CacheEntry :=
  st.highlights.find? (fun e => e.domain == domain && e.contentHash == contentHash)

/-- Key lookup in the `highlighted_urls` store. -/
def findUrl (st : Store) (url : String) : Option UrlMarker :=
  st.highlightedUrls.find? (fun u => u.url == url)

/-- Model of `saveToCache(contentHash, keypoints)` (cache.js 114-149): a `put` of
`{domain, contentHash, keypoints, timestamp: Date.now()}` — an upsert on
the composite key. -/
def saveToCache (st : Store) (domain contentHash : String) (keypoints : List Str)
    (now : Int) : Store :=
  { st with highlights :=
      ⟨domain, contentHash, keypoints, now⟩ ::
        (st.highlights.filter fun e =>
          !(e.domain == domain && e.contentHash == contentHash)) }

/-- Model of `getFromCache(contentHash)` (cache.js 156-192): a read-only transaction;
resolves with the entry's keypoints exactly when
`Date.now() - result.timestamp < CACHE_EXPIRATION` (strict), with `null`
otherwise, and never mutates the store.  The pair makes the frame explicit:
the second component is the store after the read. -/
def getFromCache (st : Store) (domain contentHash : String) (now : Int) :
    Option (List Str) × Store :=
  (match findEntry st domain contentHash with
   | some e =>
       if now - e.timestamp < CACHE_EXPIRATION then some e.keypoints else none
   | none => none,
   st)

/-- Model of `saveHighlightedUrl()` (cache.js 198-231): a `put` of
`{url, timestamp: Date.now()}`. -/
def saveHighlightedUrl (st : Store) (url : String) (now : Int) : Store :=
  { st with highlightedUrls :=
      ⟨url, now⟩ :: st.highlightedUrls.filter (fun u => !(u.url == url)) }

/-- Model of `hasUrlBeenHighlighted()` (cache.js 237-266): a pure existence check —
no expiration filter at read time. -/
def hasUrlBeenHighlighted (st : Store) (url : String) : Bool :=
  (findUrl st url).isSome

/-- Model of `clearExpiredCache()` (cache.js 364-427): over both the `highlights`
and the `highlighted_urls` stores, deletes every row whose timestamp lies in
the inclusive range `IDBKeyRange.upperBound(Date.now() - CACHE_EXPIRATION)`. -/
def clearExpiredCache (st : Store) (now : Int) : Store :=
  { highlights :=
      st.highlights.filter (fun e => !(decide (e.timestamp ≤ now - CACHE_EXPIRATION)))
  , highlightedUrls :=
      st.highlightedUrls.filter (fun u => !(decide (u.timestamp ≤ now - CACHE_EXPIRATION))) }

/-- Model of `checkCache(content)` (cache.js 434-447): hash the content and read the
cache for the current domain. -/
def checkCache (hash : Str → String) (st : Store) (domain : String) (content : Str)
    (now : Int) : Option (List Str) × Store :=
  getFromCache st domain (hash content) now

/-- Model of `cacheAnalysisResult(content, keypoints)` (cache.js 455-471): save the
keypoints as given under `(current domain, hash(content))`, upsert the
current exact URL into the highlighted-URLs store, then fire a
`clearExpiredCache()` sweep (fire-and-forget in the code; modelled as
running to completion with the same `now`). -/
def cacheAnalysisResult (hash : Str → String) (st : Store) (domain url : String)
    (content : Str) (keypoints : List Str) (now : Int) : Store :=
  clearExpiredCache
    (saveHighlightedUrl (saveToCache st domain (hash content) keypoints now) url now)
    now

/-- A concrete store holding one fresh entry for `example.com`. -/
def c4Store : Store :=
  { highlights := [⟨"example.com", "h1", [str "Lorem"], 1000⟩]
  , highlightedUrls := [] }

/-!
## C6: the `clearDomainCache` message

`cache.js` mounts exactly five functions onto the global
`window.IntelliReadCache` object (cache.js 473-478): `checkCache`,
`cacheAnalysisResult`, `hasUrlBeenHighlighted`, `setDomainAutoHighlight`
and `isDomainAutoHighlightEnabled`.  No `clearDomainCache` function is
defined anywhere in `cache.js`, so `window.IntelliReadCache.clearDomainCache`
is `undefined`.  The `clearDomainCache` branch of the message listener
(content.js 69-85) guards on that property; when it is absent it responds
`{success: false, error: 'Cache system not ready'}` without touching the
store.
-/

/-- Which properties are present on `window.IntelliReadCache`. -/
structure MountedCacheApi where
  hasCheckCache : Bool
  hasCacheAnalysisResult : Bool
  hasUrlHighlightedCheck : Bool
  hasSetDomainAutoHighlight : Bool
  hasIsDomainAutoHighlightEnabled : Bool
  hasClearDomainCache : Bool
deriving DecidableEq, Repr

/-- The API mounted by cache.js 473-478: the five functions listed there,
and nothing else — in particular no `clearDomainCache`. -/
def mountedApi : MountedCacheApi :=
  { hasCheckCache := true
  , hasCacheAnalysisResult := true
  , hasUrlHighlightedCheck := true
  , hasSetDomainAutoHighlight := true
  , hasIsDomainAutoHighlightEnabled := true
  , hasClearDomainCache := false }

/-- Response shape of the `clearDomainCache` message handler. -/
structure ClearDomainCacheResponse where
  success : Bool
  error : Option String
deriving DecidableEq, Repr

/-- The `clearDomainCache` branch of the message listener (content.js
69-85).  `clearImpl` stands for whatever function would be installed at
`window.IntelliReadCache.clearDomainCache` (returning the removal flag and
the new store); with the API as mounted the guard fails and the handler
answers `{success: false, error: 'Cache system not ready'}`, leaving the
store untouched. -/
def handleClearDomainCache (clearImpl : Store → Bool × Store)
    (api : MountedCacheApi) (st : Store) : ClearDomainCacheResponse × Store :=
  if api.hasClearDomainCache then
    let r := clearImpl st
    ({ success := r.1, error := none }, r.2)
  else
    ({ success := false, error := some "Cache system not ready" }, st)

/-- A store with one cache entry and one URL marker for `example.com`. -/
def c6Store : Store :=
  { highlights := [⟨"example.com", "h1", [str "Lorem"], 1000⟩]
  , highlightedUrls := [⟨"https://example.com/a", 1000⟩] }

/-!
## C10: what is cached versus what is highlighted

`processElement` (content.js 147-195), as a function of the unit, the
current store, and the remote model's reply for this unit (`aiKeypoints` is
the value `analyzeWithAI` would resolve with on a cache miss;
`analyzeWithAI` never rejects — all its failure paths resolve with `[]`).
-/

/-- One `processElement(el)` call.  Returns the store after the call and
the highlighting outcome (final `innerHTML`, wrapped segments).  Cache hit
(including a hit on an empty stored array, which is truthy in JavaScript):
highlight from the stored keypoints, no store write.  Cache miss: use the
model's reply, write it back raw when non-empty, then highlight from it. -/
def processElement (hash : Str → String) (settings : Settings) (st : Store)
    (domain url : String) (now : Int) (u : TextUnit) (aiKeypoints : List Str) :
    Store × (Str × List Str) :=
  if u.textContent.length < 30 then (st, (u.innerHTML, []))
  else
    match (checkCache hash st domain u.textContent now).1 with
    | some kps => (st, highlightKeypoints settings u kps)
    | none =>
        let st' :=
          if 0 < aiKeypoints.length then
            cacheAnalysisResult hash st domain url u.textContent aiKeypoints now
          else st
        (st', highlightKeypoints settings u aiKeypoints)

/-!
## Parsing the model reply (`content.js`, `parseModelResponse` 335-371)

`JSON.parse` is modelled by a recursive-descent parser of the JSON grammar.
All recursion is structural on an explicit fuel, always called with fuel
exceeding the input length (every recursive step consumes at least one
input character), so the definitions reduce in the kernel.
-/

/-- JSON's inter-token whitespace (as accepted by `JSON.parse`): space,
tab, line feed, carriage return. -/
def isJsonWs (c : Char) : Bool :=
  c == ' ' || c == '\t' || c == '\n' || c == '\r'

/-- Skip inter-token whitespace. -/
def skipJsonWs (s : Str) : Str := s.dropWhile isJsonWs

/-- A JSON value.  Numbers keep their source lexeme: the pipeline only
consumes parse success/failure and the array/string structure. -/
inductive Json where
  | null : Json
  | bool (b : Bool) : Json
  | num (lexeme : Str) : Json
  | str (s : Str) : Json
  | arr (elems : List Json) : Json
  | obj (fields : List (Str × Json)) : Json

/-- Value of a hexadecimal digit. -/
def hexVal (c : Char) : Option Nat :=
  if c.isDigit then some (c.toNat - '0'.toNat)
  else if 'a' ≤ c ∧ c ≤ 'f' then some (c.toNat - 'a'.toNat + 10)
  else if 'A' ≤ c ∧ c ≤ 'F' then some (c.toNat - 'A'.toNat + 10)
  else none

/-- The body of a JSON string, after the opening quote: decodes escapes,
rejects raw control characters, returns the decoded text and the input
after the closing quote.  (A `\uXXXX` code unit outside Lean's scalar-value
range is mapped to the null character; the replies in the claims use
none.) -/
def parseJsonStringBody : Nat → Str → Option (Str × Str)
  | 0, _ => none
  | _ + 1, [] => none
  | fuel + 1, c :: rest =>
      if c == '"' then some ([], rest)
      else if c == '\\' then
        match rest with
        | [] => none
        | e :: rest2 =>
            let dec : Option (Char × Str) :=
              if e == '"' then some ('"', rest2)
              else if e == '\\' then some ('\\', rest2)
              else if e == '/' then some ('/', rest2)
              else if e == 'b' then some ('\x08', rest2)
              else if e == 'f' then some ('\x0c', rest2)
              else if e == 'n' then some ('\n', rest2)
              else if e == 'r' then some ('\r', rest2)
              else if e == 't' then some ('\t', rest2)
              else if e == 'u' then
                match rest2 with
                | h1 :: h2 :: h3 :: h4 :: rest3 =>
                    match hexVal h1, hexVal h2, hexVal h3, hexVal h4 with
                    | some a, some b, some c2, some d =>
                        some (Char.ofNat (((a * 16 + b) * 16 + c2) * 16 + d), rest3)
                    | _, _, _, _ => none
                | _ => none
              else none
            match dec with
            | some (ch, r) =>
                match parseJsonStringBody fuel r with
                | some (body, r2) => some (ch :: body, r2)
                | none => none
            | none => none
      else if c.toNat < 32 then none
      else
        match parseJsonStringBody fuel rest with
        | some (body, r2) => some (c :: body, r2)
        | none => none

/-- Split off a leading digit run. -/
def jsonDigits (s : Str) : Str × Str :=
  (s.takeWhile Char.isDigit, s.dropWhile Char.isDigit)

/-- The optional fraction part of a JSON number. -/
def parseJsonFrac : Str → Option (Str × Str)
  | '.' :: r =>
      let d := jsonDigits r
      if d.1.isEmpty then none else some ('.' :: d.1, d.2)
  | s => some ([], s)

/-- The optional exponent part of a JSON number. -/
def parseJsonExp : Str → Option (Str × Str)
  | [] => some ([], [])
  | c :: r =>
      if c == 'e' || c == 'E' then
        let sg : Str × Str :=
          match r with
          | '+' :: t => (['+'], t)
          | '-' :: t => (['-'], t)
          | _ => ([], r)
        let d := jsonDigits sg.2
        if d.1.isEmpty then none else some (c :: (sg.1 ++ d.1), d.2)
      else some ([], c :: r)

/-- A JSON number token: `-?(0|[1-9][0-9]*)(\.[0-9]+)?([eE][+-]?[0-9]+)?`. -/
def parseJsonNumber (s : Str) : Option (Str × Str) :=
  let sgn : Str × Str :=
    match s with
    | '-' :: r => (['-'], r)
    | _ => ([], s)
  let intPart : Option (Str × Str) :=
    match sgn.2 with
    | '0' :: r => some (['0'], r)
    | c :: r =>
        if c.isDigit then
          let d := jsonDigits r
          some (c :: d.1, d.2)
        else none
    | [] => none
  match intPart with
  | none => none
  | some (ip, r1) =>
      match parseJsonFrac r1 with
      | none => none
      | some (fp, r2) =>
          match parseJsonExp r2 with
          | none => none
          | some (ep, r3) => some (sgn.1 ++ ip ++ fp ++ ep, r3)

mutual

/-- One JSON value, preceded by optional whitespace. -/
def parseJsonValue : Nat → Str → Option (Json × Str)
  | 0, _ => none
  | fuel + 1, s =>
      match skipJsonWs s with
      | [] => none
      | '"' :: r =>
          match parseJsonStringBody (r.length + 1) r with
          | some (sVal, rest) => some (.str sVal, rest)
          | none => none
      | '[' :: r =>
          match skipJsonWs r with
          | ']' :: rest => some (.arr [], rest)
          | r2 =>
              match parseJsonArrayItems fuel r2 with
              | some (vs, rest) => some (.arr vs, rest)
              | none => none
      | '{' :: r =>
          match skipJsonWs r with
          | '}' :: rest => some (.obj [], rest)
          | r2 =>
              match parseJsonObjItems fuel r2 with
              | some (fs, rest) => some (.obj fs, rest)
              | none => none
      | s2 =>
          if startsWithChars (str "true") s2 then some (.bool true, s2.drop 4)
          else if startsWithChars (str "false") s2 then some (.bool false, s2.drop 5)
          else if startsWithChars (str "null") s2 then some (.null, s2.drop 4)
          else
            match parseJsonNumber s2 with
            | some (lex, rest) => some (.num lex, rest)
            | none => none

/-- Non-empty comma-separated array items, up to and including `]`. -/
def parseJsonArrayItems : Nat → Str → Option (List Json × Str)
  | 0, _ => none
  | fuel + 1, s =>
      match parseJsonValue fuel s with
      | none => none
      | some (v, r) =>
          match skipJsonWs r with
          | ',' :: r2 =>
              match parseJsonArrayItems fuel r2 with
              | some (vs, rest) => some (v :: vs, rest)
              | none => none
          | ']' :: r2 => some ([v], r2)
          | _ => none

/-- Non-empty comma-separated object members, up to and including `}`. -/
def parseJsonObjItems : Nat → Str → Option (List (Str × Json) × Str)
  | 0, _ => none
  | fuel + 1, s =>
      match skipJsonWs s with
      | '"' :: r =>
          match parseJsonStringBody (r.length + 1) r with
          | some (k, r1) =>
              match skipJsonWs r1 with
              | ':' :: r2 =>
                  match parseJsonValue fuel r2 with
                  | none => none
                  | some (v, r3) =>
                      match skipJsonWs r3 with
                      | ',' :: r4 =>
                          match parseJsonObjItems fuel r4 with
                          | some (fs, rest) => some ((k, v) :: fs, rest)
                          | none => none
                      | '}' :: r4 => some ([(k, v)], r4)
                      | _ => none
              | _ => none
          | none => none
      | _ => none

end

/-- Model of `JSON.parse(text)`: one JSON value surrounded by optional whitespace;
fails unless the whole input is consumed. -/
def jsonParse (text : Str) : Option Json :=
  match parseJsonValue (text.length + 1) text with
  | some (v, rest) => if (skipJsonWs rest).isEmpty then some v else none
  | none => none

/-- Split at the first occurrence of a fence marker (three backticks):
returns the text before it and the text after its three backticks. -/
def splitAtFence : Str → Option (Str × Str)
  | [] => none
  | c :: rest =>
      if startsWithChars (str "```") (c :: rest) then some ([], rest.drop 2)
      else
        match splitAtFence rest with
        | some (a, b) => some (c :: a, b)
        | none => none

/-- Remove a trailing run of (JS `\s`) whitespace. -/
def dropTrailingJsWs (s : Str) : Str := (s.reverse.dropWhile isJsWs).reverse

/-- The capture group of the first successful match of the fence regex of
content.js 339 on the reply: after an opening fence, an optional `json` tag
and greedy leading whitespace, the lazy capture extends to the next fence
marker, excluding the whitespace run just before it.  When an opening fence
has no closing fence after it, the regex engine resumes scanning right
after that opening's first backtick. -/
def fenceCapture : Nat → Str → Option Str
  | 0, _ => none
  | fuel + 1, s =>
      match splitAtFence s with
      | none => none
      | some (_, afterOpen) =>
          let afterTag :=
            if startsWithChars (str "json") afterOpen then afterOpen.drop 4
            else afterOpen
          let r := afterTag.dropWhile isJsWs
          match splitAtFence r with
          | some (cap, _) => some (dropTrailingJsWs cap)
          | none => fenceCapture fuel ('`' :: '`' :: afterOpen)

/-- The markdown-fence strip of content.js 337-345: the reply is replaced by
the regex capture only when the match succeeded with a non-empty capture —
`markdownMatch[1]` is tested for truthiness, and the empty JavaScript string
is falsy, so an empty capture leaves the reply unchanged. -/
def stripMarkdownFence (s : Str) : Str :=
  match fenceCapture (s.length + 1) s with
  | some cap => if cap.isEmpty then s else cap
  | none => s

/-- The fallback's global fence-marker removal (content.js 362): at each
position, first try to match an opening fence with optional `json` tag and
trailing whitespace; otherwise a whitespace run followed by a fence marker;
otherwise keep the character and move on. -/
def removeFenceMarkers : Nat → Str → Str
  | 0, s => s
  | _ + 1, [] => []
  | fuel + 1, c :: rest =>
      if startsWithChars (str "```") (c :: rest) then
        let a := rest.drop 2
        let b := if startsWithChars (str "json") a then a.drop 4 else a
        removeFenceMarkers fuel (b.dropWhile isJsWs)
      else if isJsWs c then
        let r := (c :: rest).dropWhile isJsWs
        if startsWithChars (str "```") r then removeFenceMarkers fuel (r.drop 3)
        else c :: removeFenceMarkers fuel rest
      else c :: removeFenceMarkers fuel rest

/-- The parse-failure fallback (content.js 360-365): strip fence markers
from the original reply, split it into lines, trim each line, and keep the
non-blank lines that do not start with a bracket character. -/
def fallbackLines (s : Str) : List Str :=
  ((splitLines (removeFenceMarkers (s.length + 1) s)).map jsTrim).filter
    (fun line => decide (0 < line.length) &&
      (!startsWithChars (str "[") line && !startsWithChars (str "]") line))

/-- The keypoint string of one parsed JSON array element.  The deployed
prompt requests a JSON array of strings; a non-string element is modelled
as the empty string (in the code such an element reaches the later
`keypoint.length > 0` filter and is discarded there just the same). -/
def jsonKeypoint : Json → Str
  | .str s => s
  | _ => []

/-- Model of `parseModelResponse(modelResponse)` (content.js 335-371): strip an
optional markdown fence; `JSON.parse` the result, keeping the elements if
the parse yields an array and answering `[]` for any other JSON value; on a
parse failure, fall back to line-splitting the fence-marker-stripped
original reply. -/
def parseModelResponse (modelResponse : Str) : List Str :=
  match jsonParse (stripMarkdownFence modelResponse) with
  | some (.arr elems) => elems.map jsonKeypoint
  | some _ => []
  | none => fallbackLines modelResponse

/-- The parser as the claim words it: identical, except that the fallback
discards only the lines that consist of exactly one bracket character
("any line that is only a bracket character"), rather than any line that
starts with one. -/
def parseModelResponseClaimed (modelResponse : Str) : List Str :=
  match jsonParse (stripMarkdownFence modelResponse) with
  | some (.arr elems) => elems.map jsonKeypoint
  | some _ => []
  | none =>
      ((splitLines (removeFenceMarkers (modelResponse.length + 1) modelResponse)).map
        jsTrim).filter
        (fun line => decide (0 < line.length) &&
          (!(line == str "[") && !(line == str "]")))

/-- The parser as amended: on parse failure the fallback keeps exactly the
trimmed lines that are non-blank and whose first character is neither `[`
nor `]`. -/
def parseModelResponseAmendedSpec (modelResponse : Str) : List Str :=
  match jsonParse (stripMarkdownFence modelResponse) with
  | some (.arr elems) => elems.map jsonKeypoint
  | some _ => []
  | none =>
      ((splitLines (removeFenceMarkers (modelResponse.length + 1) modelResponse)).map
        jsTrim).filter
        (fun line => !line.isEmpty &&
          (!(line.headD ' ' == '[') && !(line.headD ' ' == ']')))

/-!
## C7: failure propagation through the scheduler

`processWithConcurrencyLimit` pushes every worker promise into `results`
and finally returns `Promise.all(results)` (content.js 199, 204, 215);
`analyzePageContent` awaits it inside a try/catch whose catch returns
`{success: false, message: 'analyze error: ...'}` (content.js 219-228).
`Promise.all` rejects as soon as any element rejects — and a worker
rejection can also surface earlier, at an `await Promise.race(executing)` —
and either way the rejection reaches the catch.  A worker's outcome is
modelled as `Except String (List Str)`; the rejection that surfaces is, in
time order, some rejected worker's reason (modelled here as the first in
list order; only its existence matters to the claims).
-/

/-- Model of `Promise.all(results)`: the list of values when every worker promise
fulfils, otherwise a rejection. -/
def promiseAll : List (Except String (List Str)) → Except String (List (List Str))
  | [] => .ok []
  | .ok v :: rest =>
      match promiseAll rest with
      | .ok vs => .ok (v :: vs)
      | .error e => .error e
  | .error e :: _ => .error e

/-- The response of `analyzePageContent`. -/
structure AnalyzeResponse where
  success : Bool
  message : String
deriving DecidableEq, Repr

/-- The batch outcome of `analyzePageContent` as a function of the worker
outcomes: `{success: true, message: 'Done'}` when the awaited scheduler
promise fulfils, and the catch's `{success: false}` response when it
rejects. -/
def analyzePageOutcome (outcomes : List (Except String (List Str))) :
    AnalyzeResponse :=
  match promiseAll outcomes with
  | .ok _ => { success := true, message := "Done" }
  | .error e => { success := false, message := "analyze error: " ++ e }

/-- Model of `analyzeWithAI(content, settings)` (content.js 270-328) as a function
of the network outcome (`.error` = network failure or non-2xx response;
`.ok none` = 2xx without `choices[0].message.content`; `.ok (some body)` =
reply body): every failure path is caught inside the function and resolves
with `[]` — `analyzeWithAI` always fulfils, never rejects. -/
def analyzeWithAI (fetchOutcome : Except String (Option Str)) : List Str :=
  match fetchOutcome with
  | .error _ => []
  | .ok none => []
  | .ok (some body) => parseModelResponse body

/-!
## Theorems
-/

theorem inflightBound_replicate_fin_append (k : Nat) (t : List SchedEv)
    (cur lim : Nat) :
    inflightBound (List.replicate k .fin ++ t) cur lim =
      inflightBound t (cur - k) lim := by
  induction k generalizing cur with
  | zero => simp [inflightBound]
  | succ k ih =>
      rw [List.replicate_succ, List.cons_append]
      simp only [inflightBound]
      rw [ih (cur - 1)]
      congr 1
      omega

theorem inflightBound_replicate_fin (k cur lim : Nat) :
    inflightBound (List.replicate k .fin) cur lim = true := by
  have h := inflightBound_replicate_fin_append k [] cur lim
  simpa [inflightBound] using h

theorem runSched_inflightBound (lim : Nat) (n : Nat) :
    ∀ (inF : Nat) (sched : List Nat), inF + 1 ≤ lim →
      inflightBound (runSched lim n inF sched) inF lim = true := by
  induction n with
  | zero =>
      intro inF sched _
      exact inflightBound_replicate_fin inF inF lim
  | succ n ih =>
      intro inF sched hinv
      simp only [runSched]
      by_cases hc : lim ≤ inF + 1
      · have hk1 : 1 ≤ min (max (sched.headD 1) 1) (inF + 1) :=
          le_min (le_max_right _ _) (Nat.succ_le_succ (Nat.zero_le _))
        simp only [if_pos hc, inflightBound, inflightBound_replicate_fin_append]
        refine (Bool.and_eq_true _ _).mpr ⟨decide_eq_true hinv, ?_⟩
        exact ih (inF + 1 - min (max (sched.headD 1) 1) (inF + 1)) sched.tail (by omega)
      · simp only [if_neg hc, inflightBound]
        refine (Bool.and_eq_true _ _).mpr ⟨decide_eq_true hinv, ?_⟩
        exact ih (inF + 1) sched (by omega)

theorem numStarts_replicate_fin (k : Nat) :
    numStarts (List.replicate k .fin) = 0 := by
  induction k with
  | zero => rfl
  | succ k ih => simpa [List.replicate_succ, numStarts] using ih

theorem numStarts_append (s t : List SchedEv) :
    numStarts (s ++ t) = numStarts s + numStarts t := by
  induction s with
  | nil => simp [numStarts]
  | cons e s ih =>
      cases e
      · show numStarts (s ++ t) + 1 = numStarts s + 1 + numStarts t
        rw [ih]
        omega
      · show numStarts (s ++ t) = numStarts s + numStarts t
        exact ih

theorem numStarts_runSched (lim n : Nat) :
    ∀ (inF : Nat) (sched : List Nat), numStarts (runSched lim n inF sched) = n := by
  induction n with
  | zero => intro inF sched; exact numStarts_replicate_fin inF
  | succ n ih =>
      intro inF sched
      simp only [runSched]
      by_cases hc : lim ≤ inF + 1
      · simp [if_pos hc, numStarts, numStarts_append, numStarts_replicate_fin, ih]
      · simp [if_neg hc, numStarts, ih]

/-- If a trace respects the in-flight bound `lim` and contains at least `k`
starts with `cur + k > lim`, then at least one settle event must occur
before the `k`-th start. -/
theorem finsBefore_of_inflightBound :
    ∀ (t : List SchedEv) (cur lim k : Nat),
      inflightBound t cur lim = true → 1 ≤ k → k ≤ numStarts t →
      lim + 1 ≤ cur + k → 1 ≤ finsBeforeNthStart t k := by
  intro t
  induction t with
  | nil =>
      intro cur lim k _ hk hks _
      simp only [numStarts] at hks
      omega
  | cons e t ih =>
      intro cur lim k hb hk hks hover
      cases e with
      | start =>
          simp only [inflightBound, Bool.and_eq_true, decide_eq_true_eq] at hb
          simp only [numStarts] at hks
          simp only [finsBeforeNthStart]
          by_cases h1 : k ≤ 1
          · omega
          · simp only [if_neg h1]
            exact ih (cur + 1) lim (k - 1) hb.2 (by omega) (by omega) (by omega)
      | fin =>
          simp only [finsBeforeNthStart]
          omega

/-- C1: during any single run of `analyzePage` over `N` analyzable text units
with the concurrency limit of 5, at no instant are more than 5 per-unit tasks
(hence `analyzeWithAI` calls) outstanding simultaneously, and the 6th per-unit
task is not started until at least one of the first 5 in-flight tasks has
settled (fulfilled or rejected). -/
theorem C1_concurrency_bound (n : Nat) (sched : List Nat) :
    inflightBound (analyzePageSchedTrace n sched) 0 5 = true ∧
    (6 ≤ n → 1 ≤ finsBeforeNthStart (analyzePageSchedTrace n sched) 6) := by
  constructor
  · exact runSched_inflightBound 5 n 0 sched (by omega)
  · intro hn
    refine finsBefore_of_inflightBound _ 0 5 6 ?_ (by omega) ?_ (by omega)
    · exact runSched_inflightBound 5 n 0 sched (by omega)
    · show 6 ≤ numStarts (runSched 5 n 0 sched)
      rw [numStarts_runSched]
      exact hn

/-- Witness for C1 at a concrete run: 7 units, a schedule settling two tasks
at the first race await. -/
theorem C1_concurrency_bound_witness :
    inflightBound (analyzePageSchedTrace 7 [2]) 0 5 = true ∧
    1 ≤ finsBeforeNthStart (analyzePageSchedTrace 7 [2]) 6 :=
  ⟨(C1_concurrency_bound 7 [2]).1, (C1_concurrency_bound 7 [2]).2 (by decide)⟩

/-!
## Properties of the keypoint selection
-/

theorem mem_insertDescLen {y x : Str} {l : List Str}
    (h : y ∈ insertDescLen x l) : y = x ∨ y ∈ l := by
  induction l with
  | nil =>
      simp only [insertDescLen, List.mem_singleton] at h
      exact Or.inl h
  | cons z zs ih =>
      simp only [insertDescLen] at h
      split at h
      · rcases List.mem_cons.mp h with h | h
        · exact Or.inr (h ▸ List.mem_cons_self _ _)
        · rcases ih h with h | h
          · exact Or.inl h
          · exact Or.inr (List.mem_cons_of_mem _ h)
      · rcases List.mem_cons.mp h with h | h
        · exact Or.inl h
        · exact Or.inr h

theorem mem_sortDescLen {y : Str} {l : List Str}
    (h : y ∈ sortDescLen l) : y ∈ l := by
  induction l with
  | nil =>
      simp only [sortDescLen] at h
      exact absurd h (List.not_mem_nil y)
  | cons x xs ih =>
      rcases mem_insertDescLen h with h | h
      · exact h ▸ List.mem_cons_self _ _
      · exact List.mem_cons_of_mem _ (ih h)

theorem chain'_insertDescLen {x : Str} {l : List Str}
    (h : l.Chain' fun a b => b.length ≤ a.length) :
    (insertDescLen x l).Chain' fun a b => b.length ≤ a.length := by
  induction l with
  | nil => simp [insertDescLen]
  | cons y ys ih =>
      simp only [insertDescLen]
      split
      · rename_i hxy
        refine List.chain'_cons'.mpr ⟨?_, ih (List.Chain'.tail h)⟩
        intro z hz
        cases ys with
        | nil =>
            simp only [insertDescLen, List.head?_cons, Option.mem_def,
              Option.some.injEq] at hz
            subst hz
            exact hxy
        | cons w ws =>
            have hyw : w.length ≤ y.length := (List.chain'_cons.mp h).1
            simp only [insertDescLen] at hz
            split at hz
            · simp only [List.head?_cons, Option.mem_def, Option.some.injEq] at hz
              subst hz
              exact hyw
            · simp only [List.head?_cons, Option.mem_def, Option.some.injEq] at hz
              subst hz
              exact hxy
      · rename_i hxy
        exact List.chain'_cons.mpr ⟨by omega, h⟩

theorem chain'_sortDescLen (l : List Str) :
    (sortDescLen l).Chain' fun a b => b.length ≤ a.length := by
  induction l with
  | nil => simp [sortDescLen]
  | cons x xs ih => exact chain'_insertDescLen ih

/-!
## C2, C3, C5: the highlighting invariants against the code
-/

/-- C2, failing-input evaluation: for the unit `c2Unit` (34 characters of
rendered text, markup `B <b>…</b>`) and the sole model keypoint `"B"` —
itself non-empty and a verbatim substring of the text — the case-insensitive
global replace of `processElement` also matches the two lowercase `b`
characters of the `<b>` tags inside `innerHTML` and wraps them in highlight
markers, although `"b"` is not a substring of the unit's rendered text
content.  This refutes the claim that every wrapped phrase is a verbatim
substring of the unit's rendered text. -/
theorem C2_wrapped_phrase_not_substring :
    30 ≤ c2Unit.textContent.length ∧
    (highlightKeypoints defaultSettings c2Unit [str "B"]).2 =
      [str "B", str "b", str "b"] ∧
    containsSub c2Unit.textContent (str "b") = false := by
  decide

/-- C3, counterexample: with the single eligible keypoint `"ab"` (so the
sort-and-truncate step keeps exactly one keypoint), the global replace wraps
all 15 occurrences of `ab`, so the unit receives 15 highlight wrappers in one
pass — more than 5. -/
theorem C3_counterexample :
    ¬ ((highlightKeypoints defaultSettings c3Unit [str "ab"]).2.length ≤ 5) := by
  decide

/-- C3, amended: in one analysis pass, at most 5 *keypoints* are highlighted
per text unit — the eligible (non-empty, verbatim-substring) keypoints are
sorted by descending length and truncated to at most 5 before highlighting —
but each kept keypoint is wrapped at every case-insensitive occurrence, so
the number of highlight *wrappers* may exceed 5. -/
theorem C3_amended_keypoint_cap (text : Str) (kps : List Str) :
    (limitKeypoints (filterKeypoints text kps)).length ≤ 5 ∧
    (limitKeypoints (filterKeypoints text kps)).Chain'
      (fun a b => b.length ≤ a.length) ∧
    ∀ k ∈ limitKeypoints (filterKeypoints text kps),
      0 < k.length ∧ containsSub text k = true := by
  refine ⟨?_, ?_, ?_⟩
  · have h5 : (limitKeypoints (filterKeypoints text kps)).length =
        min 5 (sortDescLen (filterKeypoints text kps)).length :=
      List.length_take _ _
    omega
  · exact List.Chain'.take (chain'_sortDescLen _) 5
  · intro k hk
    have hk' : k ∈ sortDescLen (filterKeypoints text kps) :=
      List.mem_of_mem_take hk
    have hk'' : k ∈ filterKeypoints text kps := mem_sortDescLen hk'
    have := List.of_mem_filter hk''
    simp only [Bool.and_eq_true, decide_eq_true_eq] at this
    exact ⟨this.1, this.2⟩

/-- Witness for the amended C3 at a concrete instance: the kept keypoint
`ab` of the unit text `abab` is non-empty and a verbatim substring. -/
theorem C3_amended_keypoint_cap_witness :
    0 < (str "ab").length ∧ containsSub (str "abab") (str "ab") = true :=
  (C3_amended_keypoint_cap (str "abab") [str "ab"]).2.2 (str "ab") (by decide)

set_option maxRecDepth 100000 in
/-- C5, failing-input evaluation: re-running the analysis on the
already-highlighted unit wraps the text `Hello` *again* — the match is found
inside the existing highlight span, because the replace operates on the full
current markup — producing two directly nested highlight wrappers (the
output markup contains two consecutive opening wrapper tags), while the first
pass produced none.  This refutes the no-double-wrap claim. -/
theorem C5_double_wrap :
    c5Pass2.2 = [str "Hello"] ∧
    containsSub c5Pass1.1
      (wrapOpen defaultSettings ++ wrapOpen defaultSettings) = false ∧
    containsSub c5Pass2.1
      (wrapOpen defaultSettings ++ wrapOpen defaultSettings) = true := by
  decide

/-!
## C4: expiration semantics of the cache read
-/

/-- C4: `getFromCache` returns the stored keypoints iff a matching entry
exists and `now - entry.timestamp < CACHE_EXPIRATION` (strict inequality):
an entry one millisecond older than the window behaves as absent, one
millisecond younger is returned, and the read never mutates the store (no
eager deletion of expired entries). -/
theorem C4_get_expiration (st : Store) (domain contentHash : String) (now : Int) :
    ((getFromCache st domain contentHash now).2 = st) ∧
    (∀ e, findEntry st domain contentHash = some e →
      ((getFromCache st domain contentHash now).1 =
          (if now - e.timestamp < CACHE_EXPIRATION then some e.keypoints else none)) ∧
      (e.timestamp = now - CACHE_EXPIRATION - 1 →
        (getFromCache st domain contentHash now).1 = none) ∧
      (e.timestamp = now - CACHE_EXPIRATION + 1 →
        (getFromCache st domain contentHash now).1 = some e.keypoints)) ∧
    (findEntry st domain contentHash = none →
      (getFromCache st domain contentHash now).1 = none) := by
  refine ⟨rfl, ?_, ?_⟩
  · intro e he
    refine ⟨by simp [getFromCache, he], ?_, ?_⟩
    · intro ht
      simp only [getFromCache, he]
      rw [if_neg]
      omega
    · intro ht
      simp only [getFromCache, he]
      rw [if_pos]
      have : (0 : Int) < CACHE_EXPIRATION := by decide
      omega
  · intro he
    simp [getFromCache, he]

/-- Witness for C4 at a concrete store and read instant. -/
theorem C4_get_expiration_witness :
    (getFromCache c4Store "example.com" "h1" 2000).1 =
      (if (2000 : Int) - 1000 < CACHE_EXPIRATION then some [str "Lorem"] else none) :=
  ((C4_get_expiration c4Store "example.com" "h1" 2000).2.1
    ⟨"example.com", "h1", [str "Lorem"], 1000⟩ (by decide)).1

/-!
## C9: effects of the write-back
-/

/-- Shared description of the write-back's effects (used by several
claims): `cacheAnalysisResult` upserts the cache entry with the given
keypoints and a fresh timestamp, upserts a highlighted-URL marker for the
current exact URL, and sweeps both stores of every row at or beyond the
expiration age. -/
theorem writeback_effects (hash : Str → String) (st : Store)
    (domain url : String) (content : Str) (keypoints : List Str) (now : Int) :
    findEntry (cacheAnalysisResult hash st domain url content keypoints now)
        domain (hash content) = some ⟨domain, hash content, keypoints, now⟩ ∧
    findUrl (cacheAnalysisResult hash st domain url content keypoints now) url =
      some ⟨url, now⟩ ∧
    (∀ e ∈ (cacheAnalysisResult hash st domain url content keypoints now).highlights,
      now - CACHE_EXPIRATION < e.timestamp) ∧
    (∀ u ∈ (cacheAnalysisResult hash st domain url content keypoints now).highlightedUrls,
      now - CACHE_EXPIRATION < u.timestamp) := by
  have hpos : (0 : Int) < CACHE_EXPIRATION := by decide
  have hne : ¬(now ≤ now - CACHE_EXPIRATION) := by omega
  refine ⟨?_, ?_, ?_, ?_⟩
  · simp [cacheAnalysisResult, clearExpiredCache, saveHighlightedUrl, saveToCache,
      findEntry, List.filter_cons, hne]
  · simp [cacheAnalysisResult, clearExpiredCache, saveHighlightedUrl, saveToCache,
      findUrl, List.filter_cons, hne]
  · intro e he
    simp only [cacheAnalysisResult, clearExpiredCache, List.mem_filter,
      Bool.not_eq_true', decide_eq_false_iff_not] at he
    omega
  · intro u hu
    simp only [cacheAnalysisResult, clearExpiredCache, List.mem_filter,
      Bool.not_eq_true', decide_eq_false_iff_not] at hu
    omega

/-- C9: every successful analyzer write-back (`cacheAnalysisResult`) has
all three effects: it upserts the cache entry with the given keypoints and a
fresh timestamp, it upserts a highlighted-URL marker for the current exact
URL, and it triggers a full expiration sweep over *both* stores, after which
no row at or beyond the expiration age remains anywhere in the store — so a
sweep runs on every write, not only from the periodic maintenance alarm. -/
theorem C9_writeback_sweep (hash : Str → String) (st : Store)
    (domain url : String) (content : Str) (keypoints : List Str) (now : Int) :
    findEntry (cacheAnalysisResult hash st domain url content keypoints now)
        domain (hash content) = some ⟨domain, hash content, keypoints, now⟩ ∧
    findUrl (cacheAnalysisResult hash st domain url content keypoints now) url =
      some ⟨url, now⟩ ∧
    (∀ e ∈ (cacheAnalysisResult hash st domain url content keypoints now).highlights,
      now - CACHE_EXPIRATION < e.timestamp) ∧
    (∀ u ∈ (cacheAnalysisResult hash st domain url content keypoints now).highlightedUrls,
      now - CACHE_EXPIRATION < u.timestamp) :=
  writeback_effects hash st domain url content keypoints now

/-- Witness for C9 at a concrete write-back into an empty store. -/
theorem C9_writeback_sweep_witness :
    findEntry (cacheAnalysisResult (fun _ => "h") ⟨[], []⟩ "example.com"
        "https://example.com/a" (str "content") [str "k"] 0) "example.com" "h" =
      some ⟨"example.com", "h", [str "k"], 0⟩ ∧
    (0 : Int) - CACHE_EXPIRATION < 0 :=
  ⟨(C9_writeback_sweep (fun _ => "h") ⟨[], []⟩ "example.com"
      "https://example.com/a" (str "content") [str "k"] 0).1,
   (C9_writeback_sweep (fun _ => "h") ⟨[], []⟩ "example.com"
      "https://example.com/a" (str "content") [str "k"] 0).2.2.1
     ⟨"example.com", "h", [str "k"], 0⟩ (by decide)⟩

/-!
## C6: the missing origin-cache clear, settled
-/

/-- C6, failing-input evaluation: the store exposes no
`clearOriginCache`/`clearDomainCache` operation at all — cache.js mounts
only five functions and `hasClearDomainCache` is false — so the
`clearDomainCache` message (whatever implementation one imagines for the
missing function) answers `success = false` and removes nothing: a
previously cached hash is still returned by `get` and the URL marker is
still present, contradicting the claim. -/
theorem C6_clearDomainCache_missing :
    mountedApi.hasClearDomainCache = false ∧
    (∀ clearImpl : Store → Bool × Store,
      handleClearDomainCache clearImpl mountedApi c6Store =
        ({ success := false, error := some "Cache system not ready" }, c6Store)) ∧
    (getFromCache c6Store "example.com" "h1" 2000).1 = some [str "Lorem"] ∧
    hasUrlBeenHighlighted c6Store "https://example.com/a" = true :=
  ⟨rfl, fun _ => rfl, by decide, by decide⟩

/-!
## C10: raw persistence, filtered use, settled
-/

/-- C10: the keypoints persisted by the analyzer are the model's raw,
unfiltered reply — on a cache miss with a non-empty reply, the stored entry
is exactly `aiKeypoints`, whatever its length and whether or not its
phrases occur in the text — while the non-empty/verbatim-substring filter
and the 5-item cap are applied only to the highlighted copy, through the
same `limitKeypoints (filterKeypoints ...)` pipeline on the miss path and on
every cache hit alike (so the same stored entry is re-filtered identically
on every hit). -/
theorem C10_raw_cache_filtered_use (hash : Str → String) (settings : Settings)
    (st : Store) (domain url : String) (now : Int) (u : TextUnit)
    (aiKeypoints : List Str) (hlen : 30 ≤ u.textContent.length) :
    ((checkCache hash st domain u.textContent now).1 = none → aiKeypoints ≠ [] →
      findEntry (processElement hash settings st domain url now u aiKeypoints).1
          domain (hash u.textContent) =
        some ⟨domain, hash u.textContent, aiKeypoints, now⟩ ∧
      (processElement hash settings st domain url now u aiKeypoints).2 =
        (highlightAll settings
          (limitKeypoints (filterKeypoints u.textContent aiKeypoints)) u.innerHTML)) ∧
    (∀ kps, (checkCache hash st domain u.textContent now).1 = some kps →
      (processElement hash settings st domain url now u aiKeypoints).1 = st ∧
      (processElement hash settings st domain url now u aiKeypoints).2 =
        (highlightAll settings
          (limitKeypoints (filterKeypoints u.textContent kps)) u.innerHTML)) := by
  constructor
  · intro hmiss hne
    have hlen' : ¬(u.textContent.length < 30) := by omega
    have hpos : 0 < aiKeypoints.length := List.length_pos.mpr hne
    constructor
    · simp only [processElement, if_neg hlen', hmiss, if_pos hpos]
      exact (writeback_effects hash st domain url u.textContent aiKeypoints now).1
    · simp only [processElement, if_neg hlen', hmiss, if_pos hpos]
      rfl
  · intro kps hhit
    have hlen' : ¬(u.textContent.length < 30) := by omega
    constructor
    · simp only [processElement, if_neg hlen', hhit]
    · simp only [processElement, if_neg hlen', hhit]
      rfl

/-- Witness for C10: an empty store (a miss), a 30-character unit, and a
model reply of six phrases one of which (`zz`) does not occur in the text:
all six are persisted verbatim; only the five longest eligible ones are
highlighted. -/
theorem C10_raw_cache_filtered_use_witness :
    findEntry (processElement (fun _ => "h") defaultSettings ⟨[], []⟩ "example.com"
        "https://example.com/a" 0
        ⟨str "abcdefghijklmnopqrstuvwxyz0123", str "abcdefghijklmnopqrstuvwxyz0123"⟩
        [str "ab", str "cd", str "ef", str "gh", str "ij", str "zz"]).1
      "example.com" "h" =
      some ⟨"example.com", "h",
        [str "ab", str "cd", str "ef", str "gh", str "ij", str "zz"], 0⟩ :=
  ((C10_raw_cache_filtered_use (fun _ => "h") defaultSettings ⟨[], []⟩ "example.com"
      "https://example.com/a" 0
      ⟨str "abcdefghijklmnopqrstuvwxyz0123", str "abcdefghijklmnopqrstuvwxyz0123"⟩
      [str "ab", str "cd", str "ef", str "gh", str "ij", str "zz"]
      (by decide)).1 (by decide) (by decide)).1

/-!
## C8: the reply parser, settled
-/

/-- The code's fallback line filter and the amended wording's filter agree
on every line. -/
theorem fallbackFilter_eq (line : Str) :
    (decide (0 < line.length) &&
      (!startsWithChars (str "[") line && !startsWithChars (str "]") line)) =
    (!line.isEmpty && (!(line.headD ' ' == '[') && !(line.headD ' ' == ']'))) := by
  cases line with
  | nil => rfl
  | cons c r =>
      have h0 : decide (0 < (c :: r).length) = true := by simp
      have hsw : ∀ (b : Char), startsWithChars [b] (c :: r) = (b == c) := fun b => by
        show ((b == c) && startsWithChars [] r) = (b == c)
        exact Bool.and_true _
      rw [show str "[" = ['['] from rfl, show str "]" = [']'] from rfl, hsw, hsw,
        h0, List.isEmpty_cons, List.headD_cons, Bool.not_false]
      simp only [Bool.true_and]
      by_cases h1 : c = '['
      · subst h1; decide
      · by_cases h2 : c = ']'
        · subst h2; decide
        · have e1 : (('[' : Char) == c) = false :=
            beq_eq_false_iff_ne.mpr fun h => h1 h.symm
          have e2 : ((']' : Char) == c) = false :=
            beq_eq_false_iff_ne.mpr fun h => h2 h.symm
          have e3 : (c == '[') = false := beq_eq_false_iff_ne.mpr h1
          have e4 : (c == ']') = false := beq_eq_false_iff_ne.mpr h2
          rw [e1, e2, e3, e4]

/-- The code's parser agrees everywhere with the amended description. -/
theorem parseModelResponse_eq_amendedSpec (s : Str) :
    parseModelResponse s = parseModelResponseAmendedSpec s := by
  unfold parseModelResponse parseModelResponseAmendedSpec fallbackLines
  cases hj : jsonParse (stripMarkdownFence s) with
  | none =>
      have hfilter : ∀ (L : List Str),
          L.filter (fun line => decide (0 < line.length) &&
            (!startsWithChars (str "[") line && !startsWithChars (str "]") line)) =
          L.filter (fun line => !line.isEmpty &&
            (!(line.headD ' ' == '[') && !(line.headD ' ' == ']'))) := by
        intro L
        congr 1
        funext line
        exact fallbackFilter_eq line
      exact hfilter _
  | some v => cases v <;> rfl

/-- C8, counterexample: on the reply `["A",` + newline + `B` — invalid
JSON, so the fallback applies — the code discards the whole line `["A",`
because it *starts* with a bracket character, although that line is not
*only* a bracket character; the parser as the claim describes it keeps that
line.  The claim's description of the fallback filter is therefore false of
the code. -/
theorem C8_counterexample :
    parseModelResponse (str "[\"A\",\nB") = [str "B"] ∧
    parseModelResponseClaimed (str "[\"A\",\nB") = [str "[\"A\",", str "B"] ∧
    parseModelResponse (str "[\"A\",\nB") ≠
      parseModelResponseClaimed (str "[\"A\",\nB") := by
  decide

/-- C8, amended: parsing first strips an optional fenced code block, then
attempts a strict JSON parse keeping the elements of a JSON array, and on
parse failure falls back to newline-splitting the fence-marker-stripped
reply, discarding blank lines and any line that *starts with* a bracket
character; in particular the fenced reply parses to `["A","B"]` and the
plain `A\nB\n` reply falls back to `["A","B"]`. -/
theorem C8_amended_parse (s : Str) :
    parseModelResponse s = parseModelResponseAmendedSpec s ∧
    parseModelResponse (str "```json\n[\"A\",\"B\"]\n```") = [str "A", str "B"] ∧
    parseModelResponse (str "A\nB\n") = [str "A", str "B"] :=
  ⟨parseModelResponse_eq_amendedSpec s, by decide, by decide⟩

/-!
## C7: failure propagation, settled
-/

/-- C7, counterexample: with three units whose middle worker promise
rejects, `analyzePageContent` reports batch failure — not the claimed
`success = true`. -/
theorem C7_counterexample :
    analyzePageOutcome [.ok [str "x"], .error "boom", .ok []] =
      { success := false, message := "analyze error: boom" } := by
  decide

/-- C7, amended: per-unit failure isolation holds at the worker level, not
in the scheduler: `analyzeWithAI` catches every network/HTTP/parse failure
internally and resolves with a list, so the worker promises built from it
all fulfil and the batch returns `success = true` even when every remote
call failed; but if a worker promise itself rejects, the scheduler does not
isolate it — `Promise.all` propagates the rejection and `analyzePageContent`
returns `success = false`. -/
theorem C7_amended_failure_propagation
    (outcomes : List (Except String (List Str))) :
    ((∀ o ∈ outcomes, ∃ v, o = Except.ok v) →
      analyzePageOutcome outcomes = { success := true, message := "Done" }) ∧
    (∀ e, Except.error e ∈ outcomes →
      (analyzePageOutcome outcomes).success = false) ∧
    (∀ fetches : List (Except String (Option Str)),
      analyzePageOutcome (fetches.map (fun f => Except.ok (analyzeWithAI f))) =
        { success := true, message := "Done" }) := by
  refine ⟨?_, ?_, ?_⟩
  · intro hok
    have : ∀ (l : List (Except String (List Str))),
        (∀ o ∈ l, ∃ v, o = Except.ok v) → ∃ vs, promiseAll l = .ok vs := by
      intro l
      induction l with
      | nil => exact fun _ => ⟨[], rfl⟩
      | cons o rest ih =>
          intro h
          obtain ⟨v, hv⟩ := h o (List.mem_cons_self _ _)
          obtain ⟨vs, hvs⟩ := ih fun o' ho' => h o' (List.mem_cons_of_mem _ ho')
          subst hv
          simp only [promiseAll, hvs]
          exact ⟨v :: vs, rfl⟩
    obtain ⟨vs, hvs⟩ := this outcomes hok
    simp [analyzePageOutcome, hvs]
  · intro e he
    have : ∀ (l : List (Except String (List Str))), Except.error e ∈ l →
        ∃ e', promiseAll l = .error e' := by
      intro l
      induction l with
      | nil => intro h; exact absurd h (List.not_mem_nil _)
      | cons o rest ih =>
          intro h
          rcases List.mem_cons.mp h with h | h
          · exact ⟨e, by rw [← h]; rfl⟩
          · obtain ⟨e', he'⟩ := ih h
            cases o with
            | error e2 => exact ⟨e2, rfl⟩
            | ok v =>
                refine ⟨e', ?_⟩
                simp only [promiseAll, he']
    obtain ⟨e', he'⟩ := this outcomes he
    simp [analyzePageOutcome, he']
  · intro fetches
    have : ∀ (l : List (Except String (Option Str))),
        promiseAll (l.map (fun f => Except.ok (analyzeWithAI f))) =
          .ok (l.map analyzeWithAI) := by
      intro l
      induction l with
      | nil => rfl
      | cons f rest ih =>
          simp only [List.map_cons, promiseAll, ih]
    simp [analyzePageOutcome, this fetches]

/-- Witness for the amended C7: a single rejecting worker flips the batch
result to failure. -/
theorem C7_amended_failure_propagation_witness :
    (analyzePageOutcome [Except.error "boom"]).success = false :=
  (C7_amended_failure_propagation [Except.error "boom"]).2.1 "boom"
    (List.mem_cons_self _ _)

end IntelliRead
